import Mathlib

/-!
Shallow embedding of the C64 emulator core (Memory.js, MOS6502 in CIA.js,
VIC2.js.backup) and verification of the spec's testable properties.

Modelling conventions: JavaScript `x & 0xFFFF` / `x & 0xFF` / `x & 0x0F`
address/value masks are written `x % 65536` / `x % 256` / `x % 16`; the
single-bit tests `config & 0x01/0x02/0x04` are written `Nat.testBit _ 0/1/2`;
`|` and `<<` on byte-sized operands are `|||` and `<<<`.  Uint8Array cells are
total functions `Nat → Nat` whose writes are masked exactly where the JS
writes are.  `console.log`/`console.warn` calls are pure no-ops and are not
modelled.
-/

namespace C64

/-- One registered I/O window (`setIOHandler` entry): inclusive address range
plus the read callback.  The write callback mutates chip state that lives
outside of `Memory`, so in this pure model a write landing in a handled
window leaves the `Memory` record unchanged. -/
structure IOHandler where
  start : Nat
  stop : Nat
  readFn : Nat → Nat

/-- First handler whose inclusive range contains the address: the JS `read` /
`write` scan the insertion-ordered handler map and return on first match. -/
def ioLookup : List IOHandler → Nat → Option IOHandler
  | [], _ => none
  | h :: t, a => if h.start ≤ a ∧ a ≤ h.stop then some h else ioLookup t a

/-- The memory subsystem of `Memory.js`: separate RAM / ROM / character-ROM /
color arrays, the registered I/O handlers, and the bank-configuration byte
(`this.bankConfig`, power-on default `0x37`). -/
structure Memory where
  ram : Nat → Nat
  rom : Nat → Nat
  charset : Nat → Nat
  colorRAM : Nat → Nat
  ioHandlers : List IOHandler
  bankConfig : Nat

/-- `Memory.read(address)`: mask the address to 16 bits, then resolve in
priority order: color RAM at 0xD800-0xDBFF (nibble-masked), then any
registered I/O handler, then the three bank-switched windows (LORAM bit 0 for
0xA000-0xBFFF, CHAREN bit 2 for 0xD000-0xDFFF, HIRAM bit 1 for
0xE000-0xFFFF), then plain RAM. -/
def Memory.read (m : Memory) (address : Nat) : Nat :=
  let a := address % 65536
  if 0xD800 ≤ a ∧ a ≤ 0xDBFF then
    m.colorRAM (a - 0xD800) % 16
  else
    match ioLookup m.ioHandlers a with
    | some h => h.readFn a
    | none =>
      if 0xA000 ≤ a ∧ a ≤ 0xBFFF then
        if m.bankConfig.testBit 0 then m.rom a else m.ram a
      else if 0xD000 ≤ a ∧ a ≤ 0xDFFF then
        if !m.bankConfig.testBit 2 then m.charset (a - 0xD000) else m.ram a
      else if 0xE000 ≤ a ∧ a ≤ 0xFFFF then
        if m.bankConfig.testBit 1 then m.rom a else m.ram a
      else
        m.ram a

/-- `Memory.write(address, value)`: mask address to 16 bits and value to 8
bits; address 0x0001 updates the bank-configuration byte and the RAM cell;
0xD800-0xDBFF stores the low nibble into color RAM; a registered I/O handler
absorbs the write (chip state is outside this record); everything else —
including ROM-shadowed windows — lands in the underlying RAM. -/
def Memory.write (m : Memory) (address value : Nat) : Memory :=
  let a := address % 65536
  let v := value % 256
  if a = 0x0001 then
    { m with bankConfig := v, ram := fun i => if i = a then v else m.ram i }
  else if 0xD800 ≤ a ∧ a ≤ 0xDBFF then
    { m with colorRAM := fun i => if i = a - 0xD800 then v % 16 else m.colorRAM i }
  else
    match ioLookup m.ioHandlers a with
    | some _ => m
    | none => { m with ram := fun i => if i = a then v else m.ram i }

/-- `Memory.read16(address)`: little-endian composition of two reads. -/
def Memory.read16 (m : Memory) (address : Nat) : Nat :=
  m.read address ||| (m.read (address + 1) <<< 8)

/-- The MOS6502 CPU state: 8-bit registers A/X/Y/SP, 16-bit PC, the seven
status flags, and the running cycle counter. -/
structure MOS6502 where
  A : Nat
  X : Nat
  Y : Nat
  SP : Nat
  PC : Nat
  N : Bool
  V : Bool
  B : Bool
  D : Bool
  I : Bool
  Z : Bool
  C : Bool
  cycles : Nat

/-- `getP()`: pack the seven flags into a status byte; bit 5 (0x20) is the
always-set reserved bit. -/
def MOS6502.getP (c : MOS6502) : Nat :=
  0x20 ||| (if c.N then 0x80 else 0) ||| (if c.V then 0x40 else 0) |||
    (if c.B then 0x10 else 0) ||| (if c.D then 0x08 else 0) |||
    (if c.I then 0x04 else 0) ||| (if c.Z then 0x02 else 0) |||
    (if c.C then 0x01 else 0)

/-- `setP(value)`: unpack a status byte into the seven flags. -/
def MOS6502.setP (c : MOS6502) (value : Nat) : MOS6502 :=
  { c with N := value.testBit 7, V := value.testBit 6, B := value.testBit 4,
           D := value.testBit 3, I := value.testBit 2, Z := value.testBit 1,
           C := value.testBit 0 }

/-- `setNZ(value)`: negative from bit 7, zero from equality with 0. -/
def MOS6502.setNZ (c : MOS6502) (value : Nat) : MOS6502 :=
  { c with N := value.testBit 7, Z := value == 0 }

/-- `push(value)`: write to `0x0100 + SP`, then decrement SP modulo 256. -/
def MOS6502.push (c : MOS6502) (m : Memory) (value : Nat) : MOS6502 × Memory :=
  ({ c with SP := (c.SP + 255) % 256 }, m.write (0x0100 + c.SP) value)

/-- `pull()`: increment SP modulo 256, then read from `0x0100 + SP`; returns
the new CPU state and the byte read (no memory mutation). -/
def MOS6502.pull (c : MOS6502) (m : Memory) : MOS6502 × Nat :=
  let sp := (c.SP + 1) % 256
  ({ c with SP := sp }, m.read (0x0100 + sp))

/-- `push16(value)`: push the high byte, then the low byte. -/
def MOS6502.push16 (c : MOS6502) (m : Memory) (value : Nat) : MOS6502 × Memory :=
  let (c1, m1) := c.push m (value / 256 % 256)
  c1.push m1 (value % 256)

/-- `pull16()`: pull the low byte, then the high byte. -/
def MOS6502.pull16 (c : MOS6502) (m : Memory) : MOS6502 × Nat :=
  let (c1, lo) := c.pull m
  let (c2, hi) := c1.pull m
  (c2, (hi <<< 8) ||| lo)

/-- `reset()`: reload PC from the reset vector 0xFFFC, SP := 0xFD, zero
A/X/Y, set the interrupt-disable flag.  Memory is only read, never written
(hence the `MOS6502` return type). -/
def MOS6502.reset (c : MOS6502) (m : Memory) : MOS6502 :=
  { c with PC := m.read16 0xFFFC, SP := 0xFD, A := 0, X := 0, Y := 0, I := true }

/-- `irq()`: no-op when the interrupt-disable flag is set; otherwise push PC
(16-bit) then the status byte, set interrupt-disable, load PC from the IRQ
vector 0xFFFE. -/
def MOS6502.irq (c : MOS6502) (m : Memory) : MOS6502 × Memory :=
  if c.I then (c, m)
  else
    let (c1, m1) := c.push16 m c.PC
    let (c2, m2) := c1.push m1 (c1.getP ||| 0x20)
    ({ c2 with I := true, PC := m2.read16 0xFFFE }, m2)

/-- `nmi()`: unconditional interrupt sequence through the NMI vector 0xFFFA,
never masked by the interrupt-disable flag. -/
def MOS6502.nmi (c : MOS6502) (m : Memory) : MOS6502 × Memory :=
  let (c1, m1) := c.push16 m c.PC
  let (c2, m2) := c1.push m1 (c1.getP ||| 0x20)
  ({ c2 with I := true, PC := m2.read16 0xFFFA }, m2)

/-- `immediate()`: the operand address is PC itself; PC advances by one. -/
def MOS6502.immediate (c : MOS6502) : Nat × MOS6502 :=
  (c.PC, { c with PC := (c.PC + 1) % 65536 })

/-- `zeroPage()`: one operand byte names the address. -/
def MOS6502.zeroPage (c : MOS6502) (m : Memory) : Nat × MOS6502 :=
  (m.read c.PC, { c with PC := (c.PC + 1) % 65536 })

/-- `zeroPageX()`: operand byte plus X, wrapped inside the zero page. -/
def MOS6502.zeroPageX (c : MOS6502) (m : Memory) : Nat × MOS6502 :=
  ((m.read c.PC + c.X) % 256, { c with PC := (c.PC + 1) % 65536 })

/-- `zeroPageY()`: operand byte plus Y, wrapped inside the zero page. -/
def MOS6502.zeroPageY (c : MOS6502) (m : Memory) : Nat × MOS6502 :=
  ((m.read c.PC + c.Y) % 256, { c with PC := (c.PC + 1) % 65536 })

/-- `absolute()`: two operand bytes little-endian name the address. -/
def MOS6502.absolute (c : MOS6502) (m : Memory) : Nat × MOS6502 :=
  (m.read16 c.PC, { c with PC := (c.PC + 2) % 65536 })

/-- `absoluteX()`: absolute base plus X, wrapped to 16 bits. -/
def MOS6502.absoluteX (c : MOS6502) (m : Memory) : Nat × MOS6502 :=
  ((m.read16 c.PC + c.X) % 65536, { c with PC := (c.PC + 2) % 65536 })

/-- `absoluteY()`: absolute base plus Y, wrapped to 16 bits. -/
def MOS6502.absoluteY (c : MOS6502) (m : Memory) : Nat × MOS6502 :=
  ((m.read16 c.PC + c.Y) % 65536, { c with PC := (c.PC + 2) % 65536 })

/-- `indirect()`: two operand bytes name a pointer; the resolved address is
read little-endian from the pointer, except that a pointer whose low byte is
0xFF fetches its high byte from the start of the same page (`ptr & 0xFF00`) —
the documented 6502 page-boundary-wrap quirk. -/
def MOS6502.indirect (c : MOS6502) (m : Memory) : Nat × MOS6502 :=
  let ptr := m.read16 c.PC
  let c1 := { c with PC := (c.PC + 2) % 65536 }
  if ptr % 256 = 0xFF then
    let lo := m.read ptr
    let hi := m.read (ptr &&& 0xFF00)
    ((hi <<< 8) ||| lo, c1)
  else
    (m.read16 ptr, c1)

/-- `indirectX()`: zero-page pointer offset by X before dereferencing. -/
def MOS6502.indirectX (c : MOS6502) (m : Memory) : Nat × MOS6502 :=
  let ptr := (m.read c.PC + c.X) % 256
  (m.read16 ptr, { c with PC := (c.PC + 1) % 65536 })

/-- `indirectY()`: zero-page pointer dereferenced, then offset by Y. -/
def MOS6502.indirectY (c : MOS6502) (m : Memory) : Nat × MOS6502 :=
  let ptr := m.read c.PC
  ((m.read16 ptr + c.Y) % 65536, { c with PC := (c.PC + 1) % 65536 })

/-- `relative()`: one operand byte, sign-extended to a branch offset. -/
def MOS6502.relative (c : MOS6502) (m : Memory) : Int × MOS6502 :=
  let offset := m.read c.PC
  ((if offset < 0x80 then (offset : Int) else (offset : Int) - 256),
   { c with PC := (c.PC + 1) % 65536 })

/-- Branch target `(PC + offset) & 0xFFFF` with a possibly negative offset
(JS bitwise-and acts as two's-complement wrap). -/
def branchTarget (pc : Nat) (offset : Int) : Nat :=
  (((pc : Int) + offset).emod 65536).toNat

/-- An instruction handler: runs on the CPU state whose PC already points
past the opcode byte, returns the new CPU, memory and the cycle cost. -/
abbrev Instr : Type := MOS6502 → Memory → MOS6502 × Memory × Nat

/-- `immediate()` adapted to the common addressing-mode shape (it reads no
memory). -/
def MOS6502.immediateM (c : MOS6502) (_ : Memory) : Nat × MOS6502 :=
  c.immediate

/-- LDA: load a value into the accumulator and set N/Z. -/
def opLoadA (mode : MOS6502 → Memory → Nat × MOS6502) (cycles : Nat) : Instr :=
  fun c m =>
    let (a, c1) := mode c m
    let v := m.read a
    (MOS6502.setNZ { c1 with A := v } v, m, cycles)

/-- LDX: load a value into X and set N/Z. -/
def opLoadX (mode : MOS6502 → Memory → Nat × MOS6502) (cycles : Nat) : Instr :=
  fun c m =>
    let (a, c1) := mode c m
    let v := m.read a
    (MOS6502.setNZ { c1 with X := v } v, m, cycles)

/-- LDY: load a value into Y and set N/Z. -/
def opLoadY (mode : MOS6502 → Memory → Nat × MOS6502) (cycles : Nat) : Instr :=
  fun c m =>
    let (a, c1) := mode c m
    let v := m.read a
    (MOS6502.setNZ { c1 with Y := v } v, m, cycles)

/-- STA/STX/STY: store a register through an addressing mode. -/
def opStore (mode : MOS6502 → Memory → Nat × MOS6502) (sel : MOS6502 → Nat)
    (cycles : Nat) : Instr :=
  fun c m =>
    let (a, c1) := mode c m
    (c1, m.write a (sel c), cycles)

/-- Conditional branch through the `relative()` mode: 3 cycles when taken,
2 when not. -/
def opBranch (cond : MOS6502 → Bool) : Instr :=
  fun c m =>
    let (off, c1) := c.relative m
    if cond c then ({ c1 with PC := branchTarget c1.PC off }, m, 3)
    else (c1, m, 2)

/-- JMP (absolute): 0x4C. -/
def opJmpAbs : Instr := fun c m =>
  let (a, c1) := c.absolute m
  ({ c1 with PC := a }, m, 3)

/-- JMP (indirect): 0x6C, with the page-wrap quirk of `indirect()`. -/
def opJmpInd : Instr := fun c m =>
  let (a, c1) := c.indirect m
  ({ c1 with PC := a }, m, 5)

/-- JSR 0x20: push the address of the last operand byte (`PC - 1`, written
`(PC + 65535) % 65536` for the 16-bit PC), then jump. -/
def opJsr : Instr := fun c m =>
  let (a, c1) := c.absolute m
  let (c2, m2) := c1.push16 m ((c1.PC + 65535) % 65536)
  ({ c2 with PC := a }, m2, 6)

/-- RTS 0x60: pull the return address and resume one byte past it. -/
def opRts : Instr := fun c m =>
  let (c1, v) := c.pull16 m
  ({ c1 with PC := (v + 1) % 65536 }, m, 6)

/-- PHA 0x48: push the accumulator. -/
def opPha : Instr := fun c m =>
  let (c1, m1) := c.push m c.A
  (c1, m1, 3)

/-- PLA 0x68: pull into the accumulator and set N/Z. -/
def opPla : Instr := fun c m =>
  let (c1, v) := c.pull m
  (MOS6502.setNZ { c1 with A := v } v, m, 4)

/-- CMP/CPX (immediate): carry from an unsigned comparison, N/Z from the
8-bit difference `(reg - value) & 0xFF`. -/
def opCompare (sel : MOS6502 → Nat) : Instr :=
  fun c m =>
    let (a, c1) := c.immediate
    let v := m.read a
    let result := (((sel c : Int) - v).emod 256).toNat
    (MOS6502.setNZ { c1 with C := decide (v ≤ sel c) } result, m, 2)

/-- RTI 0x40: pull the status byte, then the return address. -/
def opRti : Instr := fun c m =>
  let (c1, p) := c.pull m
  let c2 := c1.setP p
  let (c3, v) := c2.pull16 m
  ({ c3 with PC := v }, m, 6)

/-- The populated entries of `buildInstructionTable()`, keyed by opcode.
The JS 8-bit decrement `(x - 1) & 0xFF` is written `(x + 255) % 256`. -/
def instructionTable : List (Nat × Instr) := [
  (0xEA, fun c m => (c, m, 2)),
  (0xA9, opLoadA MOS6502.immediateM 2),
  (0xA5, opLoadA MOS6502.zeroPage 3),
  (0xAD, opLoadA MOS6502.absolute 4),
  (0xA2, opLoadX MOS6502.immediateM 2),
  (0xA6, opLoadX MOS6502.zeroPage 3),
  (0xA0, opLoadY MOS6502.immediateM 2),
  (0x85, opStore MOS6502.zeroPage MOS6502.A 3),
  (0x8D, opStore MOS6502.absolute MOS6502.A 4),
  (0x95, opStore MOS6502.zeroPageX MOS6502.A 4),
  (0x9D, opStore MOS6502.absoluteX MOS6502.A 5),
  (0x86, opStore MOS6502.zeroPage MOS6502.X 3),
  (0x84, opStore MOS6502.zeroPage MOS6502.Y 3),
  (0xAA, fun c m => (MOS6502.setNZ { c with X := c.A } c.A, m, 2)),
  (0xA8, fun c m => (MOS6502.setNZ { c with Y := c.A } c.A, m, 2)),
  (0x8A, fun c m => (MOS6502.setNZ { c with A := c.X } c.X, m, 2)),
  (0x98, fun c m => (MOS6502.setNZ { c with A := c.Y } c.Y, m, 2)),
  (0x9A, fun c m => ({ c with SP := c.X }, m, 2)),
  (0xBA, fun c m => (MOS6502.setNZ { c with X := c.SP } c.SP, m, 2)),
  (0xE8, fun c m => (MOS6502.setNZ { c with X := (c.X + 1) % 256 } ((c.X + 1) % 256), m, 2)),
  (0xC8, fun c m => (MOS6502.setNZ { c with Y := (c.Y + 1) % 256 } ((c.Y + 1) % 256), m, 2)),
  (0xCA, fun c m => (MOS6502.setNZ { c with X := (c.X + 255) % 256 } ((c.X + 255) % 256), m, 2)),
  (0x88, fun c m => (MOS6502.setNZ { c with Y := (c.Y + 255) % 256 } ((c.Y + 255) % 256), m, 2)),
  (0xD0, opBranch (fun c => !c.Z)),
  (0xF0, opBranch (fun c => c.Z)),
  (0x10, opBranch (fun c => !c.N)),
  (0x30, opBranch (fun c => c.N)),
  (0x4C, opJmpAbs),
  (0x6C, opJmpInd),
  (0x20, opJsr),
  (0x60, opRts),
  (0x48, opPha),
  (0x68, opPla),
  (0x78, fun c m => ({ c with I := true }, m, 2)),
  (0x58, fun c m => ({ c with I := false }, m, 2)),
  (0xD8, fun c m => ({ c with D := false }, m, 2)),
  (0x38, fun c m => ({ c with C := true }, m, 2)),
  (0x18, fun c m => ({ c with C := false }, m, 2)),
  (0xC9, opCompare MOS6502.A),
  (0xE0, opCompare MOS6502.X),
  (0x40, opRti)]

/-- The fill-in closure of `buildInstructionTable()`: every opcode without a
populated entry logs and behaves as a 2-cycle inert operation. -/
def illegalInstr : Instr := fun c m => (c, m, 2)

/-- The opcode bytes that have a populated handler. -/
def definedOpcodes : List Nat := instructionTable.map Prod.fst

/-- `step()`: fetch the opcode at PC, advance PC past it, dispatch through
the instruction table (which `buildInstructionTable()` fills completely, the
unpopulated slots with the logging 2-cycle inert closure, so the
`if (!instruction)` guard in the source is dead code), accumulate the cycle
cost and return it. -/
def MOS6502.step (c : MOS6502) (m : Memory) : MOS6502 × Memory × Nat :=
  let opcode := m.read c.PC
  let instr := (instructionTable.lookup opcode).getD illegalInstr
  let c1 := { c with PC := (c.PC + 1) % 65536 }
  let (c2, m2, cy) := instr c1 m
  ({ c2 with cycles := c2.cycles + cy }, m2, cy)

/-- The VIC2 timing state from `VIC2.js.backup`: the cycle-within-line
counter, the raster line, and the frame-complete signal. -/
structure VIC2 where
  cycleCounter : Nat
  rasterY : Nat
  frameComplete : Bool

/-- `VIC2.cycle()`: count cycles within the line; at 63 cycles start a new
line and advance the raster line; at line 312 (PAL) wrap to line 0 and raise
the frame-complete signal. -/
def VIC2.cycle (v : VIC2) : VIC2 :=
  let cc := v.cycleCounter + 1
  if 63 ≤ cc then
    let r := v.rasterY + 1
    if 312 ≤ r then { v with cycleCounter := 0, rasterY := 0, frameComplete := true }
    else { v with cycleCounter := 0, rasterY := r }
  else
    { v with cycleCounter := cc }

/-- `n` successive calls of `VIC2.cycle()`. -/
def VIC2.cycleN (v : VIC2) : Nat → VIC2
  | 0 => v
  | n + 1 => (v.cycleN n).cycle

/-- ROM (or character ROM) is the backing store the bank-switch decision
table selects for address `a` under the current bank-configuration byte. -/
def romVisibleAt (m : Memory) (a : Nat) : Prop :=
  (0xA000 ≤ a ∧ a ≤ 0xBFFF ∧ m.bankConfig.testBit 0 = true) ∨
  (0xE000 ≤ a ∧ a ≤ 0xFFFF ∧ m.bankConfig.testBit 1 = true) ∨
  (0xD000 ≤ a ∧ a ≤ 0xDFFF ∧ m.bankConfig.testBit 2 = false)

/-- The common body of `irq()` (when not masked) and `nmi()`: push PC then
the status byte, set interrupt-disable, load PC from the vector. -/
def interruptSeq (c : MOS6502) (m : Memory) (vec : Nat) : MOS6502 × Memory :=
  let (c1, m1) := c.push16 m c.PC
  let (c2, m2) := c1.push m1 (c1.getP ||| 0x20)
  ({ c2 with I := true, PC := m2.read16 vec }, m2)

/-- Observable effect of a completed interrupt sequence entered from state
`(c, m)` with result `r`: the three stack cells below `0x0100 + SP` hold the
PC high byte, PC low byte and status byte (reserved bit set); all other RAM
and every other backing store are untouched; SP dropped by 3 modulo 256;
interrupt-disable is set; PC was loaded from the vector; every other
register and flag is unchanged. -/
def interruptSpec (c : MOS6502) (m : Memory) (r : MOS6502 × Memory) (vec : Nat) : Prop :=
  r.2.ram (0x0100 + c.SP) = c.PC / 256 % 256 ∧
  r.2.ram (0x0100 + (c.SP + 255) % 256) = c.PC % 256 ∧
  r.2.ram (0x0100 + (c.SP + 254) % 256) = c.getP ||| 0x20 ∧
  (∀ x, x ≠ 0x0100 + c.SP → x ≠ 0x0100 + (c.SP + 255) % 256 →
    x ≠ 0x0100 + (c.SP + 254) % 256 → r.2.ram x = m.ram x) ∧
  r.2.rom = m.rom ∧ r.2.charset = m.charset ∧ r.2.colorRAM = m.colorRAM ∧
  r.2.ioHandlers = m.ioHandlers ∧ r.2.bankConfig = m.bankConfig ∧
  r.1.SP = (c.SP + 253) % 256 ∧ r.1.I = true ∧ r.1.PC = r.2.read16 vec ∧
  r.1.A = c.A ∧ r.1.X = c.X ∧ r.1.Y = c.Y ∧ r.1.N = c.N ∧ r.1.V = c.V ∧
  r.1.B = c.B ∧ r.1.D = c.D ∧ r.1.Z = c.Z ∧ r.1.C = c.C ∧ r.1.cycles = c.cycles

/-- An all-zero machine memory with no I/O handlers and the power-on bank
configuration, used to instantiate the universally quantified theorems. -/
def flatMem : Memory :=
  { ram := fun _ => 0, rom := fun _ => 0, charset := fun _ => 0,
    colorRAM := fun _ => 0, ioHandlers := [], bankConfig := 0x37 }

/-- A freshly constructed CPU state (registers and flags as in the JS
constructor). -/
def cpu0 : MOS6502 :=
  { A := 0, X := 0, Y := 0, SP := 0xFD, PC := 0, N := false, V := false,
    B := false, D := false, I := false, Z := false, C := false, cycles := 0 }

/-- Memory whose zero-page pointer at address 0 is 0x02FF (low byte 0xFF),
with distinct marker bytes at 0x02FF and at the same-page wrap target
0x0200, to exercise the indirect page-wrap quirk. -/
def ptrQuirkMem : Memory :=
  { flatMem with
    ram := fun i =>
      if i = 0 then 0xFF else if i = 1 then 0x02
      else if i = 0x02FF then 0x34 else if i = 0x0200 then 0x12 else 0 }

/-- Memory whose every RAM byte is 0x02, an opcode with no populated
handler. -/
def illegalOpMem : Memory := { flatMem with ram := fun _ => 0x02 }

/-- A VIC-style I/O window over 0xD000-0xD3FF answering 0x12, as
`C64Emulator` registers for the video chip. -/
def vicStub : IOHandler := { start := 0xD000, stop := 0xD3FF, readFn := fun _ => 0x12 }

/-- Memory with the VIC window registered, distinctive character-ROM
contents, and CHAREN = 0 (bank configuration 0x33: character ROM selected
by the decision table). -/
def memC1x : Memory :=
  { ram := fun _ => 0, rom := fun _ => 0, charset := fun _ => 0xAA,
    colorRAM := fun _ => 14, ioHandlers := [vicStub], bankConfig := 0x33 }

/-- VIC2 timing state at the start of the last PAL raster line. -/
def vic311 : VIC2 := { cycleCounter := 0, rasterY := 311, frameComplete := false }

theorem write_rom (m : Memory) (a v : Nat) : (m.write a v).rom = m.rom := by
  simp only [Memory.write]
  by_cases h1 : a % 65536 = 1
  · rw [if_pos h1]
  · rw [if_neg h1]
    by_cases h2 : 0xD800 ≤ a % 65536 ∧ a % 65536 ≤ 0xDBFF
    · rw [if_pos h2]
    · rw [if_neg h2]
      cases hio : ioLookup m.ioHandlers (a % 65536) <;> simp [hio]

theorem write_charset (m : Memory) (a v : Nat) : (m.write a v).charset = m.charset := by
  simp only [Memory.write]
  by_cases h1 : a % 65536 = 1
  · rw [if_pos h1]
  · rw [if_neg h1]
    by_cases h2 : 0xD800 ≤ a % 65536 ∧ a % 65536 ≤ 0xDBFF
    · rw [if_pos h2]
    · rw [if_neg h2]
      cases hio : ioLookup m.ioHandlers (a % 65536) <;> simp [hio]

theorem write_ioHandlers (m : Memory) (a v : Nat) :
    (m.write a v).ioHandlers = m.ioHandlers := by
  simp only [Memory.write]
  by_cases h1 : a % 65536 = 1
  · rw [if_pos h1]
  · rw [if_neg h1]
    by_cases h2 : 0xD800 ≤ a % 65536 ∧ a % 65536 ≤ 0xDBFF
    · rw [if_pos h2]
    · rw [if_neg h2]
      cases hio : ioLookup m.ioHandlers (a % 65536) <;> simp [hio]

theorem write_bankConfig (m : Memory) (a v : Nat) (h : a % 65536 ≠ 1) :
    (m.write a v).bankConfig = m.bankConfig := by
  simp only [Memory.write]
  rw [if_neg h]
  by_cases h2 : 0xD800 ≤ a % 65536 ∧ a % 65536 ≤ 0xDBFF
  · rw [if_pos h2]
  · rw [if_neg h2]
    cases hio : ioLookup m.ioHandlers (a % 65536) <;> simp [hio]

theorem write_colorRAM (m : Memory) (a v : Nat)
    (h : ¬(0xD800 ≤ a % 65536 ∧ a % 65536 ≤ 0xDBFF)) :
    (m.write a v).colorRAM = m.colorRAM := by
  simp only [Memory.write]
  by_cases h1 : a % 65536 = 1
  · rw [if_pos h1]
  · rw [if_neg h1, if_neg h]
    cases hio : ioLookup m.ioHandlers (a % 65536) <;> simp [hio]

theorem write_ram_ne (m : Memory) (a v x : Nat) (hx : x ≠ a % 65536) :
    (m.write a v).ram x = m.ram x := by
  simp only [Memory.write]
  by_cases h1 : a % 65536 = 1
  · rw [if_pos h1]
    simp [hx]
  · rw [if_neg h1]
    by_cases h2 : 0xD800 ≤ a % 65536 ∧ a % 65536 ≤ 0xDBFF
    · rw [if_pos h2]
    · rw [if_neg h2]
      cases hio : ioLookup m.ioHandlers (a % 65536) <;> simp [hio, hx]

theorem write_ram_self (m : Memory) (a v : Nat) (h1 : a % 65536 ≠ 1)
    (h2 : ¬(0xD800 ≤ a % 65536 ∧ a % 65536 ≤ 0xDBFF))
    (hio : ioLookup m.ioHandlers (a % 65536) = none) :
    (m.write a v).ram (a % 65536) = v % 256 := by
  simp only [Memory.write]
  rw [if_neg h1, if_neg h2, hio]
  simp

theorem read_color (m : Memory) (a : Nat)
    (h : 0xD800 ≤ a % 65536 ∧ a % 65536 ≤ 0xDBFF) :
    m.read a = m.colorRAM (a % 65536 - 0xD800) % 16 := by
  simp only [Memory.read]
  rw [if_pos h]

/-- Claim C8: for every address in 0xD800-0xDBFF and every value, the write
stores only the low 4 bits into color memory, the read comes back masked to
4 bits, and — because the color window is resolved before the I/O handlers
and the bank-switch logic — this holds for every handler table and every
value of the bank-configuration byte (m is fully quantified). -/
theorem claimC8_colorMemory (m : Memory) (a v : Nat)
    (h : 0xD800 ≤ a ∧ a ≤ 0xDBFF) :
    (m.write a v).colorRAM (a - 0xD800) = v % 16 ∧
    m.read a = m.colorRAM (a - 0xD800) % 16 ∧
    (m.write a v).read a = v % 16 := by
  have ha : a % 65536 = a := Nat.mod_eq_of_lt (by omega)
  have hcol : (m.write a v).colorRAM (a - 0xD800) = v % 16 := by
    simp only [Memory.write, ha]
    rw [if_neg (by omega : ¬ a = 0x0001), if_pos h]
    have hv : v % 256 % 16 = v % 16 := Nat.mod_mod_of_dvd v (by norm_num)
    simp [hv]
  refine ⟨hcol, ?_, ?_⟩
  · have := read_color m a (by omega)
    rwa [ha] at this
  · have := read_color (m.write a v) a (by omega)
    rw [ha] at this
    rw [this, hcol]
    omega

theorem claimC8_witness :
    (flatMem.write 0xD800 0xFF).colorRAM 0 = 0x0F ∧
    flatMem.read 0xD800 = flatMem.colorRAM 0 % 16 ∧
    (flatMem.write 0xD800 0xFF).read 0xD800 = 0x0F := by
  have h := claimC8_colorMemory flatMem 0xD800 0xFF (by norm_num)
  simpa using h

/-- Claim C6: `reset()` is idempotent and deterministic: it sets PC from the
reset vector 0xFFFC, SP to 0xFD, zeroes A/X/Y, sets interrupt-disable,
leaves every other flag and the cycle counter alone, never writes memory
(its result type carries no memory), and a second reset reproduces the state
after the first. -/
theorem claimC6_reset_idempotent (c : MOS6502) (m : Memory) :
    (c.reset m).reset m = c.reset m ∧
    (c.reset m).PC = m.read16 0xFFFC ∧ (c.reset m).SP = 0xFD ∧
    (c.reset m).A = 0 ∧ (c.reset m).X = 0 ∧ (c.reset m).Y = 0 ∧
    (c.reset m).I = true ∧
    (c.reset m).N = c.N ∧ (c.reset m).V = c.V ∧ (c.reset m).B = c.B ∧
    (c.reset m).D = c.D ∧ (c.reset m).Z = c.Z ∧ (c.reset m).C = c.C ∧
    (c.reset m).cycles = c.cycles := by
  simp [MOS6502.reset]

/-- Claim C4: `indirect()` resolves a pointer whose low byte is 0xFF by
fetching the high byte from the start of the same page (`ptr & 0xFF00`), and
any other pointer little-endian from `ptr` and `ptr + 1`. -/
theorem claimC4_indirect_wrap (c : MOS6502) (m : Memory) :
    (m.read16 c.PC % 256 = 0xFF →
      (c.indirect m).1 =
        (m.read (m.read16 c.PC &&& 0xFF00) <<< 8) ||| m.read (m.read16 c.PC)) ∧
    (m.read16 c.PC % 256 ≠ 0xFF →
      (c.indirect m).1 =
        m.read (m.read16 c.PC) ||| (m.read (m.read16 c.PC + 1) <<< 8)) := by
  unfold MOS6502.indirect
  constructor <;> intro h
  · rw [if_pos h]
  · rw [if_neg h]
    rfl

theorem claimC4_witness :
    ptrQuirkMem.read16 cpu0.PC % 256 = 0xFF ∧
    (cpu0.indirect ptrQuirkMem).1 =
      (ptrQuirkMem.read (ptrQuirkMem.read16 cpu0.PC &&& 0xFF00) <<< 8) |||
        ptrQuirkMem.read (ptrQuirkMem.read16 cpu0.PC) :=
  ⟨by decide, (claimC4_indirect_wrap cpu0 ptrQuirkMem).1 (by decide)⟩

theorem vic_cycleN_small (v : VIC2) (k : Nat) (h : v.cycleCounter + k ≤ 62) :
    v.cycleN k = { v with cycleCounter := v.cycleCounter + k } := by
  induction k with
  | zero => simp [VIC2.cycleN]
  | succ n ih =>
    have hn : v.cycleCounter + n ≤ 62 := by omega
    show (v.cycleN n).cycle = _
    rw [ih hn]
    simp only [VIC2.cycle]
    rw [if_neg (by omega : ¬ 63 ≤ v.cycleCounter + n + 1)]
    simp [Nat.add_assoc]

theorem vic_cycle_le (w : VIC2) (h : w.rasterY ≤ 311) : w.cycle.rasterY ≤ 311 := by
  simp only [VIC2.cycle]
  by_cases h1 : 63 ≤ w.cycleCounter + 1
  · rw [if_pos h1]
    by_cases h2 : 312 ≤ w.rasterY + 1
    · rw [if_pos h2]
      simp
    · rw [if_neg h2]
      simp
      omega
  · rw [if_neg h1]
    exact h

/-- Claim C9: from a state at the start of a line (cycle-within-line counter
zero), 63 calls of `cycle()` advance the raster line by exactly one; the
raster line stays within 0..311, and the increment that would reach 312
wraps to 0 and raises the frame-complete signal. -/
theorem claimC9_raster (v : VIC2) (h0 : v.cycleCounter = 0) (hr : v.rasterY ≤ 311) :
    (v.cycleN 63).cycleCounter = 0 ∧
    (v.rasterY < 311 →
      (v.cycleN 63).rasterY = v.rasterY + 1 ∧
      (v.cycleN 63).frameComplete = v.frameComplete) ∧
    (v.rasterY = 311 →
      (v.cycleN 63).rasterY = 0 ∧ (v.cycleN 63).frameComplete = true) ∧
    (∀ w : VIC2, w.rasterY ≤ 311 → w.cycle.rasterY ≤ 311) := by
  have h62 : v.cycleN 62 = { v with cycleCounter := v.cycleCounter + 62 } :=
    vic_cycleN_small v 62 (by omega)
  have h63 : v.cycleN 63 = (v.cycleN 62).cycle := rfl
  rw [h63, h62, h0]
  simp only [VIC2.cycle]
  rw [if_pos (by omega : 63 ≤ 0 + 62 + 1)]
  by_cases hry : 312 ≤ v.rasterY + 1
  · rw [if_pos hry]
    refine ⟨rfl, ?_, fun _ => ⟨rfl, rfl⟩, vic_cycle_le⟩
    intro hlt
    omega
  · rw [if_neg hry]
    refine ⟨rfl, fun _ => ⟨rfl, rfl⟩, ?_, vic_cycle_le⟩
    intro heq
    omega

theorem claimC9_witness :
    (vic311.cycleN 63).rasterY = 0 ∧ (vic311.cycleN 63).frameComplete = true :=
  (claimC9_raster vic311 rfl (by decide)).2.2.1 rfl

/-- Claim C1 (amended): at addresses not covered by any registered I/O
window, the three bank-switched windows obey the decision table — ROM/RAM by
LORAM for 0xA000-0xBFFF, ROM/RAM by HIRAM for 0xE000-0xFFFF, and for
0xD000-0xDFFF outside color memory, character ROM when CHAREN is 0 and the
underlying RAM when CHAREN is 1; an address covered by a registered I/O
window (outside color memory) always returns the handler's value, regardless
of CHAREN, because the handler scan precedes the bank-switch logic. -/
theorem claimC1_bank_decision (m : Memory) (a : Nat) (ha : a ≤ 0xFFFF) :
    (ioLookup m.ioHandlers a = none →
      ((0xA000 ≤ a ∧ a ≤ 0xBFFF) →
        m.read a = if m.bankConfig.testBit 0 then m.rom a else m.ram a) ∧
      ((0xE000 ≤ a ∧ a ≤ 0xFFFF) →
        m.read a = if m.bankConfig.testBit 1 then m.rom a else m.ram a) ∧
      ((0xD000 ≤ a ∧ a ≤ 0xDFFF ∧ ¬(0xD800 ≤ a ∧ a ≤ 0xDBFF)) →
        m.read a = if m.bankConfig.testBit 2 then m.ram a else m.charset (a - 0xD000))) ∧
    (∀ h, ioLookup m.ioHandlers a = some h → ¬(0xD800 ≤ a ∧ a ≤ 0xDBFF) →
      m.read a = h.readFn a) := by
  have hm : a % 65536 = a := Nat.mod_eq_of_lt (by omega)
  constructor
  · intro hio
    refine ⟨?_, ?_, ?_⟩
    · intro hw
      simp only [Memory.read, hm, hio]
      rw [if_neg (by omega : ¬(0xD800 ≤ a ∧ a ≤ 0xDBFF)), if_pos hw]
    · intro hw
      simp only [Memory.read, hm, hio]
      rw [if_neg (by omega : ¬(0xD800 ≤ a ∧ a ≤ 0xDBFF)),
          if_neg (by omega : ¬(0xA000 ≤ a ∧ a ≤ 0xBFFF)),
          if_neg (by omega : ¬(0xD000 ≤ a ∧ a ≤ 0xDFFF)), if_pos hw]
    · intro hw
      simp only [Memory.read, hm, hio]
      rw [if_neg hw.2.2, if_neg (by omega : ¬(0xA000 ≤ a ∧ a ≤ 0xBFFF)),
          if_pos (⟨hw.1, hw.2.1⟩ : 0xD000 ≤ a ∧ a ≤ 0xDFFF)]
      cases htb : m.bankConfig.testBit 2 <;> simp [htb]
  · intro h hio hcolor
    simp only [Memory.read, hm, hio]
    rw [if_neg hcolor]

/-- Claim C1 counterexample: with the VIC window registered over
0xD000-0xD3FF (as `C64Emulator` does) and CHAREN = 0, the decision table
prescribes character ROM for 0xD000, but `read` returns the handler's value:
the registered-I/O scan takes precedence over the CHAREN bit. -/
theorem claimC1_counterexample :
    memC1x.bankConfig.testBit 2 = false ∧
    memC1x.read 0xD000 = 0x12 ∧
    memC1x.charset (0xD000 - 0xD000) = 0xAA ∧
    memC1x.read 0xD000 ≠ memC1x.charset (0xD000 - 0xD000) := by
  refine ⟨by decide, by decide, by decide, by decide⟩

theorem claimC1_witness :
    flatMem.read 0xA000 =
      if flatMem.bankConfig.testBit 0 then flatMem.rom 0xA000 else flatMem.ram 0xA000 :=
  ((claimC1_bank_decision flatMem 0xA000 (by norm_num)).1 rfl).1 (by norm_num)

theorem write_one_bankConfig (m : Memory) (v : Nat) :
    (m.write 0x0001 v).bankConfig = v % 256 := by
  simp [Memory.write]

/-- Claim C2: a write to a ROM-shadow window lands in the underlying RAM and
never touches the ROM array, even while ROM is banked in (the bank
configuration of `m` is unconstrained); after switching the configuration to
one whose window bit shows RAM, reading the address returns the written
value. -/
theorem claimC2_rom_shadow (m : Memory) (a v cfg : Nat) (ha : a ≤ 0xFFFF)
    (hv : v ≤ 255) (hcfg : cfg ≤ 255)
    (hio : ioLookup m.ioHandlers a = none)
    (hbit : (0xA000 ≤ a ∧ a ≤ 0xBFFF ∧ cfg.testBit 0 = false) ∨
            (0xE000 ≤ a ∧ a ≤ 0xFFFF ∧ cfg.testBit 1 = false)) :
    (m.write a v).ram a = v ∧
    (m.write a v).rom = m.rom ∧
    ((m.write a v).write 0x0001 cfg).read a = v := by
  have hm : a % 65536 = a := Nat.mod_eq_of_lt (by omega)
  have hne1 : a % 65536 ≠ 1 := by omega
  have hnc : ¬(0xD800 ≤ a % 65536 ∧ a % 65536 ≤ 0xDBFF) := by
    rw [hm]; omega
  have hram : (m.write a v).ram a = v := by
    have := write_ram_self m a v hne1 hnc (by rwa [hm])
    rw [hm] at this
    rw [this]
    omega
  refine ⟨hram, write_rom m a v, ?_⟩
  have hio2 : ioLookup ((m.write a v).write 0x0001 cfg).ioHandlers a = none := by
    rw [write_ioHandlers, write_ioHandlers]
    exact hio
  have hcfg2 : ((m.write a v).write 0x0001 cfg).bankConfig = cfg := by
    rw [write_one_bankConfig]
    omega
  have hram2 : ((m.write a v).write 0x0001 cfg).ram a = v := by
    rw [write_ram_ne _ _ _ _ (by omega : a ≠ 0x0001 % 65536)]
    exact hram
  simp only [Memory.read, hm, hio2]
  rw [if_neg (by omega : ¬(0xD800 ≤ a ∧ a ≤ 0xDBFF))]
  rcases hbit with ⟨h1, h2, hb⟩ | ⟨h1, h2, hb⟩
  · rw [if_pos (⟨h1, h2⟩ : 0xA000 ≤ a ∧ a ≤ 0xBFFF), hcfg2, hb]
    simp [hram2]
  · rw [if_neg (by omega : ¬(0xA000 ≤ a ∧ a ≤ 0xBFFF)),
        if_neg (by omega : ¬(0xD000 ≤ a ∧ a ≤ 0xDFFF)),
        if_pos (⟨h1, h2⟩ : 0xE000 ≤ a ∧ a ≤ 0xFFFF), hcfg2, hb]
    simp [hram2]

theorem claimC2_witness :
    (flatMem.write 0xA000 0x55).ram 0xA000 = 0x55 ∧
    (flatMem.write 0xA000 0x55).rom = flatMem.rom ∧
    ((flatMem.write 0xA000 0x55).write 0x0001 0x36).read 0xA000 = 0x55 :=
  claimC2_rom_shadow flatMem 0xA000 0x55 0x36 (by norm_num) (by norm_num)
    (by norm_num) rfl (Or.inl ⟨by norm_num, by norm_num, by decide⟩)

/-- Claim C3 (amended): write-then-read returns the written value at every
address outside the registered I/O windows, outside the fixed color-memory
window 0xD800-0xDBFF (whose read-back is nibble-masked), and at which the
current bank configuration does not select ROM or character ROM. -/
theorem claimC3_write_then_read (m : Memory) (a v : Nat) (ha : a ≤ 0xFFFF)
    (hv : v ≤ 255)
    (hio : ioLookup m.ioHandlers a = none)
    (hcolor : ¬(0xD800 ≤ a ∧ a ≤ 0xDBFF))
    (hrom : ¬ romVisibleAt m a) :
    (m.write a v).read a = v := by
  have hm : a % 65536 = a := Nat.mod_eq_of_lt (by omega)
  by_cases h1 : a = 0x0001
  · subst h1
    simp only [Memory.write]
    norm_num
    simp only [Memory.read]
    norm_num
    simp only [hio]
    omega
  · have hio2 : ioLookup (m.write a v).ioHandlers a = none := by
      rw [write_ioHandlers]; exact hio
    have hbc : (m.write a v).bankConfig = m.bankConfig :=
      write_bankConfig m a v (by omega)
    have hram : (m.write a v).ram a = v := by
      have := write_ram_self m a v (by omega) (by rwa [hm]) (by rwa [hm])
      rw [hm] at this
      rw [this]
      omega
    simp only [Memory.read, hm, hio2]
    rw [if_neg hcolor]
    by_cases hA : 0xA000 ≤ a ∧ a ≤ 0xBFFF
    · rw [if_pos hA, hbc]
      have hb : m.bankConfig.testBit 0 ≠ true := by
        intro hb
        apply hrom
        unfold romVisibleAt
        exact Or.inl ⟨hA.1, hA.2, hb⟩
      rw [if_neg hb]
      exact hram
    · rw [if_neg hA]
      by_cases hD : 0xD000 ≤ a ∧ a ≤ 0xDFFF
      · rw [if_pos hD, hbc]
        have hb : m.bankConfig.testBit 2 = true := by
          rcases Bool.eq_false_or_eq_true (m.bankConfig.testBit 2) with ht | hf
          · exact ht
          · exfalso
            apply hrom
            unfold romVisibleAt
            exact Or.inr (Or.inr ⟨hD.1, hD.2, hf⟩)
        rw [hb]
        simpa using hram
      · rw [if_neg hD]
        by_cases hE : 0xE000 ≤ a ∧ a ≤ 0xFFFF
        · rw [if_pos hE, hbc]
          have hb : m.bankConfig.testBit 1 ≠ true := by
            intro hb
            apply hrom
            unfold romVisibleAt
            exact Or.inr (Or.inl ⟨hE.1, hE.2, hb⟩)
          rw [if_neg hb]
          exact hram
        · rw [if_neg hE]
          exact hram

/-- Claim C3 counterexample: address 0xD800 satisfies the claim's
hypotheses — it is outside every registered I/O window (none are registered
here) and, with CHAREN = 1 in the power-on configuration 0x37, outside every
ROM-visible window — yet writing 0xFF and reading back returns 0x0F, because
the fixed color-memory window masks to 4 bits. -/
theorem claimC3_counterexample :
    ¬ romVisibleAt flatMem 0xD800 ∧
    ioLookup flatMem.ioHandlers 0xD800 = none ∧
    (flatMem.write 0xD800 0xFF).read 0xD800 = 0x0F ∧
    (flatMem.write 0xD800 0xFF).read 0xD800 ≠ 0xFF := by
  refine ⟨?_, rfl, by decide, by decide⟩
  unfold romVisibleAt
  decide

theorem claimC3_witness : (flatMem.write 0x1234 0x77).read 0x1234 = 0x77 :=
  claimC3_write_then_read flatMem 0x1234 0x77 (by norm_num) (by norm_num) rfl
    (by omega) (by unfold romVisibleAt; decide)

theorem lookup_eq_none_of_not_mem {β : Type} (l : List (Nat × β)) (a : Nat)
    (h : a ∉ l.map Prod.fst) : l.lookup a = none := by
  induction l with
  | nil => rfl
  | cons p t ih =>
    cases p with
    | mk k b =>
      simp only [List.map_cons, List.mem_cons] at h
      push_neg at h
      have hk : (a == k) = false := beq_eq_false_iff_ne.mpr h.1
      simp [List.lookup, hk, ih h.2]

/-- Claim C7: an opcode byte with no populated handler dispatches to the
fill-in closure: `step()` returns the minimal cost 2, advances PC by one
modulo 65536, adds 2 to the cycle counter, and leaves every register, flag
and all of memory unchanged (the equation below pins the entire resulting
state). -/
theorem claimC7_illegal_opcode (c : MOS6502) (m : Memory)
    (h : m.read c.PC ∉ definedOpcodes) :
    c.step m = ({ c with PC := (c.PC + 1) % 65536, cycles := c.cycles + 2 }, m, 2) := by
  simp only [MOS6502.step]
  rw [lookup_eq_none_of_not_mem instructionTable (m.read c.PC) h]
  rfl

theorem claimC7_witness :
    cpu0.step illegalOpMem =
      ({ cpu0 with PC := (cpu0.PC + 1) % 65536, cycles := cpu0.cycles + 2 },
        illegalOpMem, 2) :=
  claimC7_illegal_opcode cpu0 illegalOpMem (by decide)

theorem getP_lt (c : MOS6502) : c.getP < 256 := by
  unfold MOS6502.getP
  cases c.N <;> cases c.V <;> cases c.B <;> cases c.D <;> cases c.I <;>
    cases c.Z <;> cases c.C <;> decide

theorem getP_or20 (c : MOS6502) : c.getP ||| 0x20 = c.getP := by
  unfold MOS6502.getP
  cases c.N <;> cases c.V <;> cases c.B <;> cases c.D <;> cases c.I <;>
    cases c.Z <;> cases c.C <;> decide

/-- `push16` written out as two explicit stack-page writes. -/
theorem push16_eq (c : MOS6502) (m : Memory) (v : Nat) :
    c.push16 m v =
      ({ c with SP := ((c.SP + 255) % 256 + 255) % 256 },
       (m.write (0x0100 + c.SP) (v / 256 % 256)).write
         (0x0100 + (c.SP + 255) % 256) (v % 256)) := rfl

set_option maxRecDepth 4000 in
/-- The interrupt sequence written out as three explicit stack-page writes
followed by the register changes. -/
theorem interruptSeq_eq (c : MOS6502) (m : Memory) (vec : Nat) :
    interruptSeq c m vec =
      ({ c with
           SP := (((c.SP + 255) % 256 + 255) % 256 + 255) % 256,
           I := true,
           PC := (((m.write (0x0100 + c.SP) (c.PC / 256 % 256)).write
               (0x0100 + (c.SP + 255) % 256) (c.PC % 256)).write
               (0x0100 + ((c.SP + 255) % 256 + 255) % 256) (c.getP ||| 0x20)).read16 vec },
       ((m.write (0x0100 + c.SP) (c.PC / 256 % 256)).write
           (0x0100 + (c.SP + 255) % 256) (c.PC % 256)).write
           (0x0100 + ((c.SP + 255) % 256 + 255) % 256) (c.getP ||| 0x20)) := rfl

theorem push_ram_outside (c : MOS6502) (m : Memory) (v : Nat) (hSP : c.SP ≤ 255)
    (x : Nat) (hx : ¬(0x0100 ≤ x ∧ x ≤ 0x01FF)) :
    (c.push m v).2.ram x = m.ram x :=
  write_ram_ne m _ v x (by omega)

theorem push16_ram_outside (c : MOS6502) (m : Memory) (v : Nat) (hSP : c.SP ≤ 255)
    (x : Nat) (hx : ¬(0x0100 ≤ x ∧ x ≤ 0x01FF)) :
    (c.push16 m v).2.ram x = m.ram x := by
  rw [push16_eq]
  rw [write_ram_ne _ _ _ _ (by omega), write_ram_ne _ _ _ _ (by omega)]

/-- The interrupt sequence meets the observable interrupt contract. -/
theorem interruptSeq_spec (c : MOS6502) (m : Memory) (vec : Nat) (hSP : c.SP ≤ 255)
    (hio : ∀ x, 0x0100 ≤ x → x ≤ 0x01FF → ioLookup m.ioHandlers x = none) :
    interruptSpec c m (interruptSeq c m vec) vec := by
  have ha2 : ((c.SP + 255) % 256 + 255) % 256 = (c.SP + 254) % 256 := by omega
  rw [interruptSeq_eq, ha2]
  have hm1 : (0x0100 + c.SP) % 65536 = 0x0100 + c.SP := by omega
  have hm2 : (0x0100 + (c.SP + 255) % 256) % 65536 = 0x0100 + (c.SP + 255) % 256 := by
    omega
  have hm3 : (0x0100 + (c.SP + 254) % 256) % 65536 = 0x0100 + (c.SP + 254) % 256 := by
    omega
  have hv3 : (c.getP ||| 0x20) % 256 = c.getP ||| 0x20 := by
    rw [getP_or20]
    exact Nat.mod_eq_of_lt (getP_lt c)
  have hram1 :
      (((m.write (0x0100 + c.SP) (c.PC / 256 % 256)).write
          (0x0100 + (c.SP + 255) % 256) (c.PC % 256)).write
          (0x0100 + (c.SP + 254) % 256) (c.getP ||| 0x20)).ram (0x0100 + c.SP) =
        c.PC / 256 % 256 := by
    rw [write_ram_ne _ _ _ _ (by omega), write_ram_ne _ _ _ _ (by omega)]
    have hs := write_ram_self m (0x0100 + c.SP) (c.PC / 256 % 256) (by omega)
      (by rw [hm1]; omega) (by rw [hm1]; exact hio _ (by omega) (by omega))
    rw [hm1] at hs
    rw [hs]
    omega
  have hram2 :
      (((m.write (0x0100 + c.SP) (c.PC / 256 % 256)).write
          (0x0100 + (c.SP + 255) % 256) (c.PC % 256)).write
          (0x0100 + (c.SP + 254) % 256) (c.getP ||| 0x20)).ram
          (0x0100 + (c.SP + 255) % 256) = c.PC % 256 := by
    rw [write_ram_ne _ _ _ _ (by omega)]
    have hs := write_ram_self (m.write (0x0100 + c.SP) (c.PC / 256 % 256))
      (0x0100 + (c.SP + 255) % 256) (c.PC % 256) (by omega)
      (by rw [hm2]; omega)
      (by rw [hm2, write_ioHandlers]; exact hio _ (by omega) (by omega))
    rw [hm2] at hs
    rw [hs]
    omega
  have hram3 :
      (((m.write (0x0100 + c.SP) (c.PC / 256 % 256)).write
          (0x0100 + (c.SP + 255) % 256) (c.PC % 256)).write
          (0x0100 + (c.SP + 254) % 256) (c.getP ||| 0x20)).ram
          (0x0100 + (c.SP + 254) % 256) = c.getP ||| 0x20 := by
    have hs := write_ram_self
      ((m.write (0x0100 + c.SP) (c.PC / 256 % 256)).write
        (0x0100 + (c.SP + 255) % 256) (c.PC % 256))
      (0x0100 + (c.SP + 254) % 256) (c.getP ||| 0x20) (by omega)
      (by rw [hm3]; omega)
      (by rw [hm3, write_ioHandlers, write_ioHandlers]
          exact hio _ (by omega) (by omega))
    rw [hm3] at hs
    rw [hs, hv3]
  refine ⟨hram1, hram2, hram3, ?_, ?_, ?_, ?_, ?_, ?_, ?_, rfl, rfl, rfl,
    rfl, rfl, rfl, rfl, rfl, rfl, rfl, rfl, rfl⟩
  · intro x hx1 hx2 hx3
    rw [write_ram_ne _ _ _ _ (by omega), write_ram_ne _ _ _ _ (by omega),
      write_ram_ne _ _ _ _ (by omega)]
  case refine_7 =>
    show ((c.SP + 254) % 256 + 255) % 256 = (c.SP + 253) % 256
    omega
  · rw [write_rom, write_rom, write_rom]
  · rw [write_charset, write_charset, write_charset]
  · rw [write_colorRAM _ _ _ (by omega), write_colorRAM _ _ _ (by omega),
      write_colorRAM _ _ _ (by omega)]
  · rw [write_ioHandlers, write_ioHandlers, write_ioHandlers]
  · rw [write_bankConfig _ _ _ (by omega), write_bankConfig _ _ _ (by omega),
      write_bankConfig _ _ _ (by omega)]

/-- Claim C5: `irq()` is a complete no-op (CPU and memory) when the
interrupt-disable flag is set; when it is clear it performs the interrupt
sequence through the IRQ vector 0xFFFE (PC pushed high-then-low, then the
status byte with the reserved bit set, interrupt-disable set, PC loaded from
the vector); `nmi()` performs the same sequence through 0xFFFA
unconditionally. -/
theorem claimC5_interrupts (c : MOS6502) (m : Memory) (hSP : c.SP ≤ 255)
    (hio : ∀ x, 0x0100 ≤ x → x ≤ 0x01FF → ioLookup m.ioHandlers x = none) :
    (c.I = true → c.irq m = (c, m)) ∧
    (c.I = false → interruptSpec c m (c.irq m) 0xFFFE) ∧
    interruptSpec c m (c.nmi m) 0xFFFA := by
  refine ⟨?_, ?_, ?_⟩
  · intro hI
    simp [MOS6502.irq, hI]
  · intro hI
    have heq : c.irq m = interruptSeq c m 0xFFFE := by
      unfold MOS6502.irq interruptSeq
      rw [if_neg (by simp [hI])]
    rw [heq]
    exact interruptSeq_spec c m 0xFFFE hSP hio
  · have heq : c.nmi m = interruptSeq c m 0xFFFA := rfl
    rw [heq]
    exact interruptSeq_spec c m 0xFFFA hSP hio

theorem claimC5_witness :
    interruptSpec cpu0 flatMem (cpu0.nmi flatMem) 0xFFFA ∧
    (cpu0.I = false → interruptSpec cpu0 flatMem (cpu0.irq flatMem) 0xFFFE) :=
  ⟨(claimC5_interrupts cpu0 flatMem (by decide) (fun x h1 h2 => rfl)).2.2,
   (claimC5_interrupts cpu0 flatMem (by decide) (fun x h1 h2 => rfl)).2.1⟩

/-- Claim C10: the primitive stack operations only touch the fixed page
0x0100-0x01FF — `push` writes at `0x0100 + SP` (inside the page) and changes
no other RAM cell and no other backing store, `pull` reads at
`0x0100 + (SP+1) % 256` (inside the page) and never writes — and every
stack-using operation (push16/pull16, JSR, RTS, PHA, PLA, RTI, irq, nmi)
keeps SP an 8-bit value, wrapping modulo 256 instead of escaping the page or
raising an error, and confines its RAM effects to the stack page. -/
theorem claimC10_stack (c : MOS6502) (m : Memory) (v : Nat) (hSP : c.SP ≤ 255) :
    (0x0100 ≤ 0x0100 + c.SP ∧ 0x0100 + c.SP ≤ 0x01FF ∧
     (c.push m v).1.SP = (c.SP + 255) % 256 ∧ (c.push m v).1.SP ≤ 255 ∧
     (∀ x, ¬(0x0100 ≤ x ∧ x ≤ 0x01FF) → (c.push m v).2.ram x = m.ram x) ∧
     (c.push m v).2.rom = m.rom ∧ (c.push m v).2.charset = m.charset ∧
     (c.push m v).2.colorRAM = m.colorRAM ∧
     (c.push m v).2.ioHandlers = m.ioHandlers ∧
     (c.push m v).2.bankConfig = m.bankConfig) ∧
    ((c.pull m).1.SP = (c.SP + 1) % 256 ∧ (c.pull m).1.SP ≤ 255 ∧
     (c.pull m).2 = m.read (0x0100 + (c.SP + 1) % 256) ∧
     0x0100 ≤ 0x0100 + (c.SP + 1) % 256 ∧ 0x0100 + (c.SP + 1) % 256 ≤ 0x01FF) ∧
    ((c.push16 m v).1.SP = (c.SP + 254) % 256 ∧ (c.push16 m v).1.SP ≤ 255 ∧
     (∀ x, ¬(0x0100 ≤ x ∧ x ≤ 0x01FF) → (c.push16 m v).2.ram x = m.ram x)) ∧
    ((c.pull16 m).1.SP = (c.SP + 2) % 256 ∧ (c.pull16 m).1.SP ≤ 255) ∧
    ((opJsr c m).1.SP = (c.SP + 254) % 256 ∧
     (∀ x, ¬(0x0100 ≤ x ∧ x ≤ 0x01FF) → (opJsr c m).2.1.ram x = m.ram x)) ∧
    ((opRts c m).1.SP = (c.SP + 2) % 256 ∧ (opRts c m).2.1 = m) ∧
    ((opPha c m).1.SP = (c.SP + 255) % 256 ∧
     (∀ x, ¬(0x0100 ≤ x ∧ x ≤ 0x01FF) → (opPha c m).2.1.ram x = m.ram x)) ∧
    ((opPla c m).1.SP = (c.SP + 1) % 256 ∧ (opPla c m).2.1 = m) ∧
    ((opRti c m).1.SP = (c.SP + 3) % 256 ∧ (opRti c m).2.1 = m) ∧
    ((c.irq m).1.SP = (if c.I = true then c.SP else (c.SP + 253) % 256) ∧
     (∀ x, ¬(0x0100 ≤ x ∧ x ≤ 0x01FF) → (c.irq m).2.ram x = m.ram x)) ∧
    ((c.nmi m).1.SP = (c.SP + 253) % 256 ∧
     (∀ x, ¬(0x0100 ≤ x ∧ x ≤ 0x01FF) → (c.nmi m).2.ram x = m.ram x)) := by
  refine ⟨⟨by omega, by omega, rfl, ?_, push_ram_outside c m v hSP,
      write_rom m _ v, write_charset m _ v, write_colorRAM m _ v (by omega),
      write_ioHandlers m _ v, write_bankConfig m _ v (by omega)⟩,
    ⟨rfl, ?_, rfl, by omega, by omega⟩,
    ⟨?_, ?_, push16_ram_outside c m v hSP⟩,
    ⟨?_, ?_⟩, ⟨?_, ?_⟩, ⟨?_, rfl⟩, ⟨rfl, ?_⟩, ⟨?_, rfl⟩, ⟨?_, rfl⟩, ⟨?_, ?_⟩,
    ⟨?_, ?_⟩⟩
  · show (c.SP + 255) % 256 ≤ 255
    omega
  · show (c.SP + 1) % 256 ≤ 255
    omega
  · show ((c.SP + 255) % 256 + 255) % 256 = (c.SP + 254) % 256
    omega
  · show ((c.SP + 255) % 256 + 255) % 256 ≤ 255
    omega
  · show ((c.SP + 1) % 256 + 1) % 256 = (c.SP + 2) % 256
    omega
  · show ((c.SP + 1) % 256 + 1) % 256 ≤ 255
    omega
  · show ((c.SP + 255) % 256 + 255) % 256 = (c.SP + 254) % 256
    omega
  · intro x hx
    exact push16_ram_outside { c with PC := (c.PC + 2) % 65536 } m
      (((c.PC + 2) % 65536 + 65535) % 65536) hSP x hx
  · show ((c.SP + 1) % 256 + 1) % 256 = (c.SP + 2) % 256
    omega
  · intro x hx
    exact push_ram_outside c m c.A hSP x hx
  · rfl
  · show (((c.SP + 1) % 256 + 1) % 256 + 1) % 256 = (c.SP + 3) % 256
    omega
  · by_cases hI : c.I = true
    · rw [if_pos hI]
      simp [MOS6502.irq, hI]
    · rw [if_neg hI]
      have heq : c.irq m = interruptSeq c m 0xFFFE := by
        unfold MOS6502.irq interruptSeq
        rw [if_neg (by simpa using hI)]
      rw [heq, interruptSeq_eq]
      show (((c.SP + 255) % 256 + 255) % 256 + 255) % 256 = (c.SP + 253) % 256
      omega
  · intro x hx
    by_cases hI : c.I = true
    · simp [MOS6502.irq, hI]
    · have heq : c.irq m = interruptSeq c m 0xFFFE := by
        unfold MOS6502.irq interruptSeq
        rw [if_neg (by simpa using hI)]
      rw [heq, interruptSeq_eq]
      rw [write_ram_ne _ _ _ _ (by omega), write_ram_ne _ _ _ _ (by omega),
        write_ram_ne _ _ _ _ (by omega)]
  · rw [show c.nmi m = interruptSeq c m 0xFFFA from rfl, interruptSeq_eq]
    show (((c.SP + 255) % 256 + 255) % 256 + 255) % 256 = (c.SP + 253) % 256
    omega
  · intro x hx
    rw [show c.nmi m = interruptSeq c m 0xFFFA from rfl, interruptSeq_eq]
    rw [write_ram_ne _ _ _ _ (by omega), write_ram_ne _ _ _ _ (by omega),
      write_ram_ne _ _ _ _ (by omega)]

theorem claimC10_witness :
    (cpu0.push flatMem 0x42).1.SP = (cpu0.SP + 255) % 256 ∧
    (cpu0.nmi flatMem).1.SP = (cpu0.SP + 253) % 256 :=
  ⟨(claimC10_stack cpu0 flatMem 0x42 (by decide)).1.2.2.1,
   (claimC10_stack cpu0 flatMem 0x42 (by decide)).2.2.2.2.2.2.2.2.2.2.1⟩

end C64
